import Mathlib

/-! OIDC identity projection (`lib/auth/oidc/identity.go`).

A shallow embedding of `NewIdentity` and of the Go values it works on, followed by
the properties of the projection.

Go values are embedded as follows.

* A pointer `*T` is an `Option T`; `none` is the nil pointer and reading a field
  through it panics.
* A `map[string]V` is a `GoMap V`: either the nil map or a map made by `make` or a
  literal, given by its entries in the order a `range` loop visits them.  Go leaves
  that order unspecified, so two `GoMap`s whose entries are permutations of each
  other stand for the same map visited in two orders.  The keys of a Go map are
  pairwise distinct (`GoMap.WF`).
* A function that can panic returns `Except GoPanic`.
-/

namespace Nomad

/-! ## Go runtime values -/

/-- The run-time panics the embedded code could raise. -/
inductive GoPanic where
  | nilPointerDereference
  | assignmentToNilMap
  deriving DecidableEq, Repr

/-- A Go `map[string]V`: the nil map, or a made map with its entries listed in the
order in which a `range` loop visits them. -/
inductive GoMap (V : Type) where
  | nil : GoMap V
  | made (entries : List (String × V)) : GoMap V
  deriving DecidableEq, Repr

/-- The value bound to `k` in a list of entries (the first one, should `k` occur twice). -/
def lookupEntries {V : Type} (k : String) : List (String × V) → Option V
  | [] => none
  | (k', v) :: rest => if k' = k then some v else lookupEntries k rest

/-- The entries after `m[k] = v`: the binding of `k` is replaced where it stands, a new
key is added. -/
def assignEntries {V : Type} (k : String) (v : V) : List (String × V) → List (String × V)
  | [] => [(k, v)]
  | (k', v') :: rest =>
    if k' = k then (k, v) :: rest else (k', v') :: assignEntries k v rest

namespace GoMap

/-- The call `make(map[string]V)`: a non-nil map without entries. -/
def make {V : Type} : GoMap V := .made []

/-- The entries a `for k, v := range m` loop visits, in order; a nil map gives no
iteration. -/
def range {V : Type} : GoMap V → List (String × V)
  | .nil => []
  | .made entries => entries

/-- The keys of the map, in `range` order. -/
def keys {V : Type} (m : GoMap V) : List String := m.range.map Prod.fst

/-- The values of the map, in `range` order. -/
def values {V : Type} (m : GoMap V) : List V := m.range.map Prod.snd

/-- Well-formedness of a Go map: no key occurs twice. -/
def WF {V : Type} (m : GoMap V) : Prop := m.keys.Nodup

instance decidableWF {V : Type} (m : GoMap V) : Decidable m.WF :=
  inferInstanceAs (Decidable m.keys.Nodup)

/-- The index expression `v, ok := m[k]`; `none` when the key is absent (also on a nil
map). -/
def get? {V : Type} (m : GoMap V) (k : String) : Option V := lookupEntries k m.range

/-- The statement `m[k] = v`; it panics on a nil map. -/
def assign {V : Type} (m : GoMap V) (k : String) (v : V) : Except GoPanic (GoMap V) :=
  match m with
  | .nil => .error .assignmentToNilMap
  | .made entries => .ok (.made (assignEntries k v entries))

/-- Two maps with the same entries, possibly visited in a different order. -/
def SameEntries {V : Type} (m m' : GoMap V) : Prop := m.range.Perm m'.range

end GoMap

/-- Reading through a pointer: a nil pointer panics. -/
def deref {T : Type} : Option T → Except GoPanic T
  | none => .error .nilPointerDereference
  | some x => .ok x

/-! ## The structs of `nomad/structs` used by `NewIdentity` -/

/-- Modelled from the spec: `structs.ACLAuthMethodConfig`, whose declaration is outside
the source files at hand.  The fields are those of the data model's AuthMethodConfig
(discovery URL, client ID and secret, bound audiences, allowed redirect URIs, CA
material, signing algorithms, claim-mapping and list-claim-mapping rules from external
claim name to internal bind name), named as in the auth method literal of
`acl_test.go`. -/
structure ACLAuthMethodConfig where
  OIDCDiscoveryURL : String
  OIDCClientID : String
  OIDCClientSecret : String
  BoundAudiences : List String
  AllowedRedirectURIs : List String
  DiscoveryCaPem : List String
  SigningAlgs : List String
  ClaimMappings : GoMap String
  ListClaimMappings : GoMap String
  deriving DecidableEq, Repr

/-- Modelled from the spec: `structs.ACLAuthClaims`, whose declaration is outside the
source files at hand: the scalar claims `Value` (claim name to string, the map
`NewIdentity` ranges over) and the list claims `List` (claim name to a sequence of
strings). -/
structure ACLAuthClaims where
  Value : GoMap String
  List : GoMap (List String)
  deriving DecidableEq, Repr

/-! ## `identity.go` -/

/-- The struct `Identity`.  `Claims` is declared `interface{}`; `NewIdentity` stores the
`*structs.ACLAuthClaims` pointer it was given there. -/
structure Identity where
  Claims : Option ACLAuthClaims
  ClaimMappings : GoMap String
  deriving DecidableEq, Repr

/-- The first loop of `NewIdentity`:
`for _, k := range authMethodConfig.ClaimMappings { projectedVars["value."+k] = "" }`.
The loop variable is the value of each entry, the internal bind name. -/
def seedLoop (projectedVars : GoMap String) (claimMappings : GoMap String) :
    Except GoPanic (GoMap String) :=
  claimMappings.range.foldlM (fun vars e => vars.assign ("value." ++ e.2) "") projectedVars

/-- The second loop of `NewIdentity`:
`for k, val := range authClaims.Value { projectedVars["value."+k] = val }`. -/
def overlayLoop (projectedVars : GoMap String) (value : GoMap String) :
    Except GoPanic (GoMap String) :=
  value.range.foldlM (fun vars e => vars.assign ("value." ++ e.1) e.2) projectedVars

/-- The function `NewIdentity` of `lib/auth/oidc/identity.go`, statement by statement. -/
def NewIdentity (authMethodConfig : Option ACLAuthMethodConfig)
    (authClaims : Option ACLAuthClaims) : Except GoPanic Identity := do
  let projectedVars : GoMap String := GoMap.make
  let config ← deref authMethodConfig
  let projectedVars ← seedLoop projectedVars config.ClaimMappings
  let claims ← deref authClaims
  let projectedVars ← overlayLoop projectedVars claims.Value
  return { Claims := authClaims, ClaimMappings := projectedVars }

/-- The entries of `projectedVars` after both loops, over the entry lists of the two
maps: the loops of `NewIdentity` without the panic plumbing. -/
def projectedEntries (claimMappings value : List (String × String)) :
    List (String × String) :=
  value.foldl (fun l e => assignEntries ("value." ++ e.1) e.2 l)
    (claimMappings.foldl (fun l e => assignEntries ("value." ++ e.2) "" l) [])

/-- The auth method config of `acl_test.go`: claim mapping `{"foo": "bar"}` and list
claim mapping `{"foo": "bar"}`.  The discovery URL and the CA certificate are run-time
values of the test provider there; fixed strings stand for them. -/
def testConfig : ACLAuthMethodConfig where
  OIDCDiscoveryURL := "https://127.0.0.1:8443"
  OIDCClientID := "mock"
  OIDCClientSecret := "verysecretsecret"
  BoundAudiences := ["mock"]
  AllowedRedirectURIs := ["http://127.0.0.1:4649/oidc/callback"]
  DiscoveryCaPem := ["-----BEGIN CERTIFICATE-----"]
  SigningAlgs := ["ES256"]
  ClaimMappings := .made [("foo", "bar")]
  ListClaimMappings := .made [("foo", "bar")]

/-- A token carrying the single scalar claim `foo = "hello"`. -/
def helloClaims : ACLAuthClaims where
  Value := .made [("foo", "hello")]
  List := .nil

/-- A token without claims: both maps are nil. -/
def emptyClaims : ACLAuthClaims where
  Value := .nil
  List := .nil

/-- A token whose only scalar claim is named `bar`, like the bind name of `testConfig`. -/
def shadowClaims : ACLAuthClaims where
  Value := .made [("bar", "x")]
  List := .nil

/-- The config of `acl_test.go` with its scalar claim mappings removed: only the list
claim mapping `{"foo": "bar"}` is left. -/
def listOnlyConfig : ACLAuthMethodConfig :=
  { testConfig with ClaimMappings := .made [] }

/-- A config whose maps are all nil. -/
def nilConfig : ACLAuthMethodConfig :=
  { testConfig with ClaimMappings := .nil, ListClaimMappings := .nil }

/-- A config with two claim mappings, `a -> x` and `b -> y`, visited in that order. -/
def twoConfig : ACLAuthMethodConfig :=
  { testConfig with ClaimMappings := .made [("a", "x"), ("b", "y")] }

/-- The map of `twoConfig` visited in the other order. -/
def twoConfigSwapped : ACLAuthMethodConfig :=
  { testConfig with ClaimMappings := .made [("b", "y"), ("a", "x")] }

/-- A token with the scalar claims `x = "1"` and `c = "2"`, visited in that order. -/
def twoClaims : ACLAuthClaims where
  Value := .made [("x", "1"), ("c", "2")]
  List := .nil

/-- The claims of `twoClaims` visited in the other order. -/
def twoClaimsSwapped : ACLAuthClaims where
  Value := .made [("c", "2"), ("x", "1")]
  List := .nil

/-- A config that declares the bind name `bar` twice, under other external names than
`testConfig`, and differs from it in the other fields as well. -/
def renamedConfig : ACLAuthMethodConfig where
  OIDCDiscoveryURL := "https://example.org"
  OIDCClientID := "other"
  OIDCClientSecret := "secret"
  BoundAudiences := []
  AllowedRedirectURIs := []
  DiscoveryCaPem := []
  SigningAlgs := ["RS256"]
  ClaimMappings := .made [("first", "bar"), ("second", "bar")]
  ListClaimMappings := .nil

/-- The claims of `helloClaims` together with a list claim. -/
def helloListClaims : ACLAuthClaims where
  Value := .made [("foo", "hello")]
  List := .made [("groups", ["dev", "ops"])]

/-! ## The authorization URL request

`TestACLOIDC_GetAuthURL` calls `GetAuthURL` through the API client; the implementation
of the call is outside the source files at hand, so the issuer below follows the
design document.  Only the request and the auth method are taken from the test. -/

/-- The request struct `api.ACLOIDCAuthURLRequest`, with the fields the test sets. -/
structure ACLOIDCAuthURLRequest where
  AuthMethodName : String
  RedirectURI : String
  ClientNonce : String
  deriving DecidableEq, Repr

/-- Modelled from the spec: the error kinds an authorization URL request can end in
(the configuration errors of the error taxonomy). -/
inductive AuthURLError where
  | AuthMethodNotFound
  | RedirectNotAllowed
  | DiscoveryError
  deriving DecidableEq, Repr

/-- Modelled from the spec: a `StateRecord` of the state store: the generated state
token, the client-supplied nonce and the auth method name it was issued for, its
creation time and its expiry. -/
structure StateRecord where
  token : String
  nonce : String
  authMethodName : String
  createdAt : Nat
  expiresAt : Nat
  deriving DecidableEq, Repr

/-- Modelled from the spec: `StateStore.Create`, which generates a token, records a
`StateRecord` keyed by it and returns the token.  The generator is not part of the
model: the token it produced is the argument `token`, of which the spec says only that
it is opaque, unguessable and unique. -/
def StateStore.Create (records : List StateRecord) (token : String) (now ttl : Nat)
    (authMethodName clientNonce : String) : String × List StateRecord :=
  (token, { token := token, nonce := clientNonce, authMethodName := authMethodName,
            createdAt := now, expiresAt := now + ttl } :: records)

/-- Modelled from the spec: an authorization URL, as the provider's authorization
endpoint and the query parameters by name and decoded value.  The percent-encoding of
the URL text is not part of the model. -/
structure AuthURL where
  endpoint : String
  query : List (String × String)
  deriving DecidableEq, Repr

/-- The decoded value of the query parameter `name`, when the URL has it. -/
def AuthURL.param (u : AuthURL) (name : String) : Option String :=
  lookupEntries name u.query

/-- The check `strings.HasPrefix(s, p)`, on the characters of the two strings. -/
def startsWith (s p : String) : Prop := p.data <+: s.data

instance decidableStartsWith (s p : String) : Decidable (startsWith s p) :=
  inferInstanceAs (Decidable (p.data <+: s.data))

/-- Modelled from the spec: `ProviderClient.BuildAuthURL`.  It fails with
`RedirectNotAllowed` when the redirect URI is not in the allow-set, without contacting
the provider, and with `DiscoveryError` when the discovery metadata cannot be had
(`authorizationEndpoint = none`); otherwise it builds the URL with the parameters
`client_id`, `nonce`, `redirect_uri`, `response_type=code`, `scope=openid` and `state`,
the minimum the external interface lists. -/
def BuildAuthURL (config : ACLAuthMethodConfig) (authorizationEndpoint : Option String)
    (redirectURI stateToken nonce : String) : Except AuthURLError AuthURL :=
  if redirectURI ∈ config.AllowedRedirectURIs then
    match authorizationEndpoint with
    | none => .error .DiscoveryError
    | some endpoint =>
      .ok { endpoint := endpoint
            query := [("client_id", config.OIDCClientID), ("nonce", nonce),
              ("redirect_uri", redirectURI), ("response_type", "code"),
              ("scope", "openid"), ("state", stateToken)] }
  else .error .RedirectNotAllowed

/-- Modelled from the spec: `AuthURLIssuer.GetAuthURL`: look up the named auth
method's config in the auth-method store, call `StateStore.Create`, call
`ProviderClient.BuildAuthURL`.  The auth-method store is `methods`, the provider's
discovery is `discover` (from the discovery URL to the authorization endpoint, `none`
when the metadata is unreachable or malformed), and `token` is what the state store's
generator produced for this call. -/
def GetAuthURL (methods : List (String × ACLAuthMethodConfig))
    (discover : String → Option String) (records : List StateRecord) (token : String)
    (now ttl : Nat) (request : ACLOIDCAuthURLRequest) :
    Except AuthURLError (AuthURL × List StateRecord) :=
  match lookupEntries request.AuthMethodName methods with
  | none => .error .AuthMethodNotFound
  | some config =>
    let created := StateStore.Create records token now ttl request.AuthMethodName
      request.ClientNonce
    match BuildAuthURL config (discover config.OIDCDiscoveryURL) request.RedirectURI
        created.1 request.ClientNonce with
    | .error err => .error err
    | .ok url => .ok (url, created.2)

/-- The auth method store of `TestACLOIDC_GetAuthURL` after the test's `Create` call:
the one method `api-test-auth-method` with the test's config. -/
def testMethods : List (String × ACLAuthMethodConfig) :=
  [("api-test-auth-method", testConfig)]

/-- A provider whose discovery answers: the authorization endpoint is `/authorize`
under the provider's address. -/
def testDiscover (discoveryURL : String) : Option String :=
  some (discoveryURL ++ "/authorize")

/-- A provider whose discovery document cannot be fetched. -/
def unreachableDiscover (_discoveryURL : String) : Option String := none

/-- The request of `TestACLOIDC_GetAuthURL` (`acl_test.go`, lines 53 to 57). -/
def testAuthURLRequest : ACLOIDCAuthURLRequest where
  AuthMethodName := "api-test-auth-method"
  RedirectURI := "http://127.0.0.1:4649/oidc/callback"
  ClientNonce := "fpSPuaodKevKfDU3IeXb"

/-! ## Lemmas on entry lists -/

theorem lookupEntries_assign_self {V : Type} (k : String) (v : V) (l : List (String × V)) :
    lookupEntries k (assignEntries k v l) = some v := by
  induction l with
  | nil => simp [assignEntries, lookupEntries]
  | cons e rest ih =>
    obtain ⟨k', v'⟩ := e
    by_cases h : k' = k
    · simp [assignEntries, lookupEntries, h]
    · simp [assignEntries, lookupEntries, h, ih]

theorem lookupEntries_assign_ne {V : Type} {k key : String} (h : k ≠ key) (v : V)
    (l : List (String × V)) :
    lookupEntries key (assignEntries k v l) = lookupEntries key l := by
  induction l with
  | nil => simp [assignEntries, lookupEntries, h]
  | cons e rest ih =>
    obtain ⟨k', v'⟩ := e
    by_cases hk : k' = k
    · subst hk
      simp [assignEntries, lookupEntries, h]
    · by_cases hkey : k' = key
      · subst hkey
        simp [assignEntries, lookupEntries, hk]
      · simp [assignEntries, lookupEntries, hk, hkey, ih]

theorem lookupEntries_eq_none_iff {V : Type} (key : String) (l : List (String × V)) :
    lookupEntries key l = none ↔ key ∉ l.map Prod.fst := by
  induction l with
  | nil => simp [lookupEntries]
  | cons e rest ih =>
    obtain ⟨k', v'⟩ := e
    by_cases h : k' = key
    · simp [lookupEntries, h]
    · simp only [lookupEntries, h, if_false, ih, List.map_cons, List.mem_cons, not_or]
      constructor
      · intro hr
        exact ⟨fun hk => h hk.symm, hr⟩
      · intro hr
        exact hr.2

theorem mem_of_lookupEntries_eq_some {V : Type} {key : String} {v : V}
    {l : List (String × V)} (h : lookupEntries key l = some v) : (key, v) ∈ l := by
  induction l with
  | nil => simp [lookupEntries] at h
  | cons e rest ih =>
    obtain ⟨k', v'⟩ := e
    by_cases hk : k' = key
    · simp [lookupEntries, hk] at h
      simp [hk, h]
    · simp [lookupEntries, hk] at h
      exact List.mem_cons_of_mem _ (ih h)

theorem lookupEntries_of_mem {V : Type} {key : String} {v : V} {l : List (String × V)}
    (nd : (l.map Prod.fst).Nodup) (h : (key, v) ∈ l) : lookupEntries key l = some v := by
  induction l with
  | nil => simp at h
  | cons e rest ih =>
    obtain ⟨k', v'⟩ := e
    simp only [List.map_cons, List.nodup_cons] at nd
    rcases List.mem_cons.mp h with heq | hmem
    · simp only [Prod.mk.injEq] at heq
      simp [lookupEntries, heq.1, heq.2]
    · have hne : k' ≠ key := by
        intro hk
        apply nd.1
        rw [hk]
        exact List.mem_map.mpr ⟨(key, v), hmem, rfl⟩
      simp [lookupEntries, hne, ih nd.2 hmem]

/-- A run of assignments: a key assigned in the run holds what its last assignment gave
it, any other key keeps its binding. -/
theorem lookupEntries_foldl_assign {V : Type} (key : String) (as : List (String × V))
    (l0 : List (String × V)) :
    lookupEntries key (as.foldl (fun l a => assignEntries a.1 a.2 l) l0)
      = (lookupEntries key as.reverse).orElse (fun _ => lookupEntries key l0) := by
  induction as using List.reverseRecOn with
  | nil => simp [lookupEntries]
  | append_singleton as a ih =>
    obtain ⟨k, v⟩ := a
    rw [List.foldl_append, List.reverse_append]
    by_cases h : k = key
    · subst h
      simp [lookupEntries, lookupEntries_assign_self]
    · simp [lookupEntries, h, lookupEntries_assign_ne h, ih]

/-! ## The loops of `NewIdentity` never panic -/

theorem value_prefix_inj {a b : String} : "value." ++ a = "value." ++ b ↔ a = b := by
  constructor
  · intro h
    have hd := congrArg String.data h
    simp only [String.data_append, List.append_cancel_left_eq] at hd
    exact String.ext hd
  · intro h
    rw [h]

theorem foldlM_assign_made {α V : Type} (f : α → String × V) (es : List α)
    (l0 : List (String × V)) :
    es.foldlM (fun vars e => GoMap.assign vars (f e).1 (f e).2) (GoMap.made l0)
      = Except.ok (GoMap.made (es.foldl (fun l e => assignEntries (f e).1 (f e).2 l) l0)) := by
  induction es generalizing l0 with
  | nil => rfl
  | cons e es ih =>
    rw [List.foldlM_cons, List.foldl_cons]
    exact ih _

theorem NewIdentity_some (config : ACLAuthMethodConfig) (claims : ACLAuthClaims) :
    NewIdentity (some config) (some claims)
      = Except.ok
          { Claims := some claims
            ClaimMappings :=
              GoMap.made (projectedEntries config.ClaimMappings.range claims.Value.range) } := by
  have h1 := foldlM_assign_made (fun e : String × String => ("value." ++ e.2, ""))
    config.ClaimMappings.range []
  have h2 := foldlM_assign_made (fun e : String × String => ("value." ++ e.1, e.2))
    claims.Value.range
    (config.ClaimMappings.range.foldl (fun l e => assignEntries ("value." ++ e.2) "" l) [])
  simp only at h1 h2
  simp only [NewIdentity, deref, seedLoop, overlayLoop, GoMap.make, h1, h2, projectedEntries,
    bind, Except.bind, pure, Except.pure]

/-- A nil config pointer is dereferenced before the first loop. -/
theorem NewIdentity_nil_config (authClaims : Option ACLAuthClaims) :
    NewIdentity none authClaims = Except.error GoPanic.nilPointerDereference := rfl

/-- A nil claims pointer is dereferenced after the first loop has run. -/
theorem NewIdentity_nil_claims (config : ACLAuthMethodConfig) :
    NewIdentity (some config) none = Except.error GoPanic.nilPointerDereference := by
  have h1 := foldlM_assign_made (fun e : String × String => ("value." ++ e.2, ""))
    config.ClaimMappings.range []
  simp only at h1
  simp only [NewIdentity, deref, seedLoop, GoMap.make, h1, bind, Except.bind]

/-- The keys the overlay loop assigns, paired with the values, in visiting order. -/
theorem lookupEntries_projectedEntries (cm val : List (String × String)) (key : String) :
    lookupEntries key (projectedEntries cm val)
      = (lookupEntries key (val.map (fun e => ("value." ++ e.1, e.2))).reverse).orElse
          (fun _ => lookupEntries key (cm.map (fun e => ("value." ++ e.2, ""))).reverse) := by
  unfold projectedEntries
  have h1 := lookupEntries_foldl_assign key (val.map (fun e => ("value." ++ e.1, e.2)))
    (cm.foldl (fun l e => assignEntries ("value." ++ e.2) "" l) [])
  have h2 := lookupEntries_foldl_assign key (cm.map (fun e => ("value." ++ e.2, ""))) []
  rw [List.foldl_map] at h1 h2
  rw [h1, h2]
  simp [lookupEntries]

theorem lookupEntries_perm {V : Type} {l l' : List (String × V)} (key : String)
    (nd : (l.map Prod.fst).Nodup) (h : l.Perm l') :
    lookupEntries key l = lookupEntries key l' := by
  have nd' : (l'.map Prod.fst).Nodup := (h.map Prod.fst).nodup_iff.mp nd
  cases hl : lookupEntries key l with
  | none =>
    have hk := (lookupEntries_eq_none_iff key l).mp hl
    have hk' : key ∉ l'.map Prod.fst := fun hm => hk ((h.map Prod.fst).mem_iff.mpr hm)
    exact ((lookupEntries_eq_none_iff key l').mpr hk').symm
  | some v =>
    have hm := mem_of_lookupEntries_eq_some hl
    exact (lookupEntries_of_mem nd' (h.mem_iff.mp hm)).symm

theorem overlay_keys (val : List (String × String)) :
    (val.map (fun e => ("value." ++ e.1, e.2))).map Prod.fst
      = (val.map Prod.fst).map (fun k => "value." ++ k) := by
  simp [List.map_map, Function.comp_def]

theorem seed_keys (cm : List (String × String)) :
    (cm.map (fun e => (("value." ++ e.2, "") : String × String))).map Prod.fst
      = (cm.map Prod.snd).map (fun b => "value." ++ b) := by
  simp [List.map_map, Function.comp_def]

theorem overlay_nodup {val : List (String × String)} (nd : (val.map Prod.fst).Nodup) :
    ((val.map (fun e => ("value." ++ e.1, e.2))).map Prod.fst).Nodup := by
  rw [overlay_keys]
  exact nd.map (fun a b h => value_prefix_inj.mp h)

/-- A seed binds its key to the empty string. -/
theorem lookupEntries_seed (cm : List (String × String)) (key : String) :
    lookupEntries key (cm.map (fun e => (("value." ++ e.2, "") : String × String))).reverse
      = if key ∈ (cm.map Prod.snd).map (fun b => "value." ++ b) then some "" else none := by
  split
  · next hmem =>
    cases hl : lookupEntries key
        (cm.map (fun e => (("value." ++ e.2, "") : String × String))).reverse with
    | none =>
      have hk := (lookupEntries_eq_none_iff key _).mp hl
      rw [List.map_reverse, List.mem_reverse, seed_keys] at hk
      exact absurd hmem hk
    | some v =>
      have hm := mem_of_lookupEntries_eq_some hl
      rw [List.mem_reverse, List.mem_map] at hm
      obtain ⟨e, _, he⟩ := hm
      simp only [Prod.mk.injEq] at he
      rw [he.2]
  · next hmem =>
    apply (lookupEntries_eq_none_iff key _).mpr
    rw [List.map_reverse, List.mem_reverse, seed_keys]
    exact hmem

/-- What `projectedVars` holds after both loops, key by key, for a claim map with
distinct keys: the claim's value under an overlaid key, the empty string under a key
that is only seeded, nothing elsewhere. -/
theorem lookupEntries_projectedEntries_eq {cm val : List (String × String)}
    (nd : (val.map Prod.fst).Nodup) (key : String) :
    lookupEntries key (projectedEntries cm val)
      = (lookupEntries key (val.map (fun e => ("value." ++ e.1, e.2)))).orElse
          (fun _ => if key ∈ (cm.map Prod.snd).map (fun b => "value." ++ b)
            then some "" else none) := by
  rw [lookupEntries_projectedEntries, lookupEntries_seed,
    ← lookupEntries_perm key (overlay_nodup nd) (List.reverse_perm _).symm]

theorem lookupEntries_overlay_of_mem {val : List (String × String)}
    (nd : (val.map Prod.fst).Nodup) {k v : String} (h : (k, v) ∈ val) :
    lookupEntries ("value." ++ k) (val.map (fun e => ("value." ++ e.1, e.2))) = some v :=
  lookupEntries_of_mem (overlay_nodup nd) (List.mem_map.mpr ⟨(k, v), h, rfl⟩)

theorem lookupEntries_overlay_eq_none {val : List (String × String)} {key : String}
    (h : ∀ k ∈ val.map Prod.fst, key ≠ "value." ++ k) :
    lookupEntries key (val.map (fun e => ("value." ++ e.1, e.2))) = none := by
  apply (lookupEntries_eq_none_iff key _).mpr
  rw [overlay_keys]
  intro hm
  obtain ⟨k, hk, hkey⟩ := List.mem_map.mp hm
  exact h k hk hkey.symm

/-- The key set of `projectedVars` after both loops (no assumption on the input maps). -/
theorem mem_keys_projectedEntries (cm val : List (String × String)) (key : String) :
    key ∈ (projectedEntries cm val).map Prod.fst
      ↔ key ∈ (cm.map Prod.snd).map (fun b => "value." ++ b)
        ∨ key ∈ (val.map Prod.fst).map (fun k => "value." ++ k) := by
  have hnone := lookupEntries_eq_none_iff key (projectedEntries cm val)
  rw [lookupEntries_projectedEntries, lookupEntries_seed] at hnone
  have hov := lookupEntries_eq_none_iff key
    (val.map (fun e => ("value." ++ e.1, e.2))).reverse
  rw [List.map_reverse, List.mem_reverse, overlay_keys] at hov
  by_cases h1 : key ∈ (val.map Prod.fst).map (fun k => "value." ++ k)
  · cases hl : lookupEntries key (val.map (fun e => ("value." ++ e.1, e.2))).reverse with
    | none => exact absurd h1 (hov.mp hl)
    | some v =>
      rw [hl] at hnone
      simp only [Option.orElse, reduceCtorEq, false_iff, not_not] at hnone
      exact ⟨fun _ => Or.inr h1, fun _ => hnone⟩
  · have hl := hov.mpr h1
    rw [hl] at hnone
    by_cases h2 : key ∈ (cm.map Prod.snd).map (fun b => "value." ++ b)
    · simp only [Option.orElse, h2, if_true, reduceCtorEq, false_iff, not_not] at hnone
      exact ⟨fun _ => Or.inl h2, fun _ => hnone⟩
    · simp only [Option.orElse, h2, if_false, true_iff] at hnone
      simp only [h1, h2, or_self, iff_false]
      exact hnone

/-! ## The projected map is a well-formed Go map -/

theorem assignEntries_keys {V : Type} (k : String) (v : V) (l : List (String × V)) :
    (assignEntries k v l).map Prod.fst
      = if k ∈ l.map Prod.fst then l.map Prod.fst else l.map Prod.fst ++ [k] := by
  induction l with
  | nil => simp [assignEntries]
  | cons e rest ih =>
    obtain ⟨k', v'⟩ := e
    by_cases h : k' = k
    · simp [assignEntries, h]
    · have h' : ¬ k = k' := fun hk => h hk.symm
      by_cases hm : k ∈ rest.map Prod.fst
      · simp only [assignEntries, h, if_false, List.map_cons, ih, hm, if_true,
          List.mem_cons, or_true]
      · simp only [assignEntries, h, if_false, List.map_cons, ih, hm, List.mem_cons, h',
          or_self, List.cons_append]

theorem assignEntries_nodup {V : Type} (k : String) (v : V) {l : List (String × V)}
    (nd : (l.map Prod.fst).Nodup) : ((assignEntries k v l).map Prod.fst).Nodup := by
  rw [assignEntries_keys]
  split
  · exact nd
  · next hm =>
    exact List.Nodup.append nd (List.nodup_singleton k)
      (List.disjoint_singleton.mpr hm)

theorem foldl_assignEntries_nodup {α V : Type} (f : α → String × V) (es : List α)
    {l0 : List (String × V)} (nd : (l0.map Prod.fst).Nodup) :
    ((es.foldl (fun l e => assignEntries (f e).1 (f e).2 l) l0).map Prod.fst).Nodup := by
  induction es generalizing l0 with
  | nil => exact nd
  | cons e es ih =>
    rw [List.foldl_cons]
    exact ih (assignEntries_nodup _ _ nd)

theorem projectedEntries_nodup (cm val : List (String × String)) :
    ((projectedEntries cm val).map Prod.fst).Nodup :=
  foldl_assignEntries_nodup (fun e : String × String => ("value." ++ e.1, e.2)) val
    (foldl_assignEntries_nodup (fun e : String × String => ("value." ++ e.2, "")) cm
      List.nodup_nil)

/-- Two well-formed entry lists with the same lookups hold the same entries. -/
theorem perm_of_lookupEntries_eq {V : Type} {l l' : List (String × V)}
    (nd : (l.map Prod.fst).Nodup) (nd' : (l'.map Prod.fst).Nodup)
    (h : ∀ key, lookupEntries key l = lookupEntries key l') : l.Perm l' := by
  apply (List.perm_ext_iff_of_nodup (List.Nodup.of_map _ nd) (List.Nodup.of_map _ nd')).mpr
  intro e
  obtain ⟨k, v⟩ := e
  constructor
  · intro hm
    exact mem_of_lookupEntries_eq_some ((h k).symm.trans (lookupEntries_of_mem nd hm))
  · intro hm
    exact mem_of_lookupEntries_eq_some ((h k).trans (lookupEntries_of_mem nd' hm))

theorem mem_map_value_iff (b : String) (l : List String) :
    "value." ++ b ∈ l.map (fun k => "value." ++ k) ↔ b ∈ l :=
  List.mem_map_of_injective (fun _ _ h => value_prefix_inj.mp h)

/-- The projection sees the claim mappings only through the set of their bind names
and the claim values only as a map, whatever the order of the entries. -/
theorem lookupEntries_projectedEntries_congr {cm cm' val val' : List (String × String)}
    (nd : (val.map Prod.fst).Nodup)
    (hcm : ∀ b, b ∈ cm.map Prod.snd ↔ b ∈ cm'.map Prod.snd) (hval : val.Perm val')
    (key : String) :
    lookupEntries key (projectedEntries cm val)
      = lookupEntries key (projectedEntries cm' val') := by
  have nd' : (val'.map Prod.fst).Nodup := (hval.map Prod.fst).nodup_iff.mp nd
  have hseed : key ∈ (cm.map Prod.snd).map (fun b => "value." ++ b)
      ↔ key ∈ (cm'.map Prod.snd).map (fun b => "value." ++ b) := by
    simp only [List.mem_map]
    constructor
    · rintro ⟨b, hb, rfl⟩
      exact ⟨b, List.mem_map.mp ((hcm b).mp (List.mem_map.mpr hb)), rfl⟩
    · rintro ⟨b, hb, rfl⟩
      exact ⟨b, List.mem_map.mp ((hcm b).mpr (List.mem_map.mpr hb)), rfl⟩
  rw [lookupEntries_projectedEntries_eq nd, lookupEntries_projectedEntries_eq nd',
    lookupEntries_perm key (overlay_nodup nd) (hval.map _)]
  simp only [hseed]

/-! ## Properties of `NewIdentity` -/

/-- C1: every internal bind name `b` that occurs as a value of `config.ClaimMappings`
has its key `"value." ++ b` present in the `ClaimMappings` of the identity built by
`NewIdentity`, for every claim set, whether or not the token carries a matching claim. -/
theorem NewIdentity_declared_bind_name_present (config : ACLAuthMethodConfig)
    (claims : ACLAuthClaims) (b : String) (hb : b ∈ config.ClaimMappings.values) :
    ∃ id, NewIdentity (some config) (some claims) = Except.ok id
      ∧ "value." ++ b ∈ id.ClaimMappings.keys := by
  refine ⟨_, NewIdentity_some config claims, ?_⟩
  show "value." ++ b ∈ (projectedEntries _ _).map Prod.fst
  rw [mem_keys_projectedEntries]
  exact Or.inl (List.mem_map.mpr ⟨b, hb, rfl⟩)

theorem NewIdentity_declared_bind_name_present_witness :
    "bar" ∈ testConfig.ClaimMappings.values
      ∧ ∃ id, NewIdentity (some testConfig) (some emptyClaims) = Except.ok id
        ∧ "value." ++ "bar" ∈ id.ClaimMappings.keys :=
  ⟨by decide, NewIdentity_declared_bind_name_present testConfig emptyClaims "bar" (by decide)⟩

/-- C2, as stated, fails: with the claim mapping `foo -> bar` and a token whose only
claim is `bar = "x"`, the external claim `foo` is absent from the token, yet
`ClaimMappings["value.bar"]` is `"x"` and not the empty string. -/
theorem NewIdentity_absent_external_claim_counterexample :
    ("foo", "bar") ∈ testConfig.ClaimMappings.range
      ∧ "foo" ∉ shadowClaims.Value.keys
      ∧ ∃ id, NewIdentity (some testConfig) (some shadowClaims) = Except.ok id
        ∧ id.ClaimMappings.get? ("value." ++ "bar") = some "x"
        ∧ id.ClaimMappings.get? ("value." ++ "bar") ≠ some "" :=
  ⟨by decide, by decide, _, rfl, by decide, by decide⟩

/-- C2, amended: for every claim-mapping entry of `config.ClaimMappings` that maps an
external claim name `e` to an internal bind name `b`, if the token has no claim named
`b` (`b` is not a key of `claims.Value`), then `ClaimMappings["value." ++ b]` is the
empty string, whether or not `e` is a key of `claims.Value`. -/
theorem NewIdentity_absent_bind_name_empty (config : ACLAuthMethodConfig)
    (claims : ACLAuthClaims) (e b : String) (hm : (e, b) ∈ config.ClaimMappings.range)
    (hb : b ∉ claims.Value.keys) :
    ∃ id, NewIdentity (some config) (some claims) = Except.ok id
      ∧ id.ClaimMappings.get? ("value." ++ b) = some "" := by
  refine ⟨_, NewIdentity_some config claims, ?_⟩
  show lookupEntries ("value." ++ b) (projectedEntries _ _) = some ""
  have hov : lookupEntries ("value." ++ b)
      (claims.Value.range.map (fun e => ("value." ++ e.1, e.2))).reverse = none := by
    apply (lookupEntries_eq_none_iff _ _).mpr
    rw [List.map_reverse, List.mem_reverse, overlay_keys]
    intro hmem
    obtain ⟨k, hk, hkey⟩ := List.mem_map.mp hmem
    exact hb ((value_prefix_inj.mp hkey) ▸ hk)
  have hseed : "value." ++ b ∈ (config.ClaimMappings.range.map Prod.snd).map
      (fun b => "value." ++ b) :=
    List.mem_map.mpr ⟨b, List.mem_map.mpr ⟨(e, b), hm, rfl⟩, rfl⟩
  rw [lookupEntries_projectedEntries, hov, lookupEntries_seed, if_pos hseed]
  rfl

theorem NewIdentity_absent_bind_name_empty_witness :
    ("foo", "bar") ∈ testConfig.ClaimMappings.range
      ∧ "bar" ∉ helloClaims.Value.keys
      ∧ ∃ id, NewIdentity (some testConfig) (some helloClaims) = Except.ok id
        ∧ id.ClaimMappings.get? ("value." ++ "bar") = some "" :=
  ⟨by decide, by decide,
    NewIdentity_absent_bind_name_empty testConfig helloClaims "foo" "bar" (by decide)
      (by decide)⟩

/-- C3: for every entry `(k, v)` of `claims.Value`, the identity built by `NewIdentity`
has `ClaimMappings["value." ++ k] = v`, for every config, also when `k` is itself a
declared bind name: the overlay is keyed by the claim's own name and wins over the
seed. -/
theorem NewIdentity_overlays_claim_value (config : ACLAuthMethodConfig)
    (claims : ACLAuthClaims) (hwf : claims.Value.WF) (k v : String)
    (h : (k, v) ∈ claims.Value.range) :
    ∃ id, NewIdentity (some config) (some claims) = Except.ok id
      ∧ id.ClaimMappings.get? ("value." ++ k) = some v := by
  refine ⟨_, NewIdentity_some config claims, ?_⟩
  show lookupEntries ("value." ++ k) (projectedEntries _ _) = some v
  rw [lookupEntries_projectedEntries_eq hwf, lookupEntries_overlay_of_mem hwf h]
  rfl

theorem NewIdentity_overlays_claim_value_witness :
    helloClaims.Value.WF ∧ ("foo", "hello") ∈ helloClaims.Value.range
      ∧ ∃ id, NewIdentity (some testConfig) (some helloClaims) = Except.ok id
        ∧ id.ClaimMappings.get? ("value." ++ "foo") = some "hello" :=
  ⟨by decide, by decide,
    NewIdentity_overlays_claim_value testConfig helloClaims (by decide) "foo" "hello"
      (by decide)⟩

/-- C4, as stated, fails: with no scalar claim mapping, the list claim mapping
`foo -> bar` and a token without claims, the key `"value.bar"` is absent from
`ClaimMappings`. -/
theorem NewIdentity_list_claim_mapping_counterexample :
    "bar" ∈ listOnlyConfig.ListClaimMappings.values
      ∧ "bar" ∉ emptyClaims.Value.keys
      ∧ ∃ id, NewIdentity (some listOnlyConfig) (some emptyClaims) = Except.ok id
        ∧ "value." ++ "bar" ∉ id.ClaimMappings.keys
        ∧ id.ClaimMappings.get? ("value." ++ "bar") = none :=
  ⟨by decide, by decide, _, rfl, by decide, by decide⟩

/-- C4, amended: list-claim mappings are not seeded.  For every bind name `b` that
occurs as a value of `config.ListClaimMappings`, the key `"value." ++ b` is present in
`ClaimMappings` exactly when `b` is also a value of `config.ClaimMappings` or a key of
`claims.Value`; and when `claims.Value` has no claim named `b`, the key maps to the
empty string if `b` is a value of `config.ClaimMappings` and is absent otherwise. -/
theorem NewIdentity_list_claim_mapping_not_seeded (config : ACLAuthMethodConfig)
    (claims : ACLAuthClaims) (b : String) (_hb : b ∈ config.ListClaimMappings.values) :
    ∃ id, NewIdentity (some config) (some claims) = Except.ok id
      ∧ ("value." ++ b ∈ id.ClaimMappings.keys
          ↔ b ∈ config.ClaimMappings.values ∨ b ∈ claims.Value.keys)
      ∧ (b ∉ claims.Value.keys →
          id.ClaimMappings.get? ("value." ++ b)
            = if b ∈ config.ClaimMappings.values then some "" else none) := by
  refine ⟨_, NewIdentity_some config claims, ?_, ?_⟩
  · show "value." ++ b ∈ (projectedEntries _ _).map Prod.fst ↔ _
    rw [mem_keys_projectedEntries, mem_map_value_iff, mem_map_value_iff]
    rfl
  · intro hb
    show lookupEntries ("value." ++ b) (projectedEntries _ _) = _
    have hov : lookupEntries ("value." ++ b)
        (claims.Value.range.map (fun e => ("value." ++ e.1, e.2))).reverse = none := by
      apply (lookupEntries_eq_none_iff _ _).mpr
      rw [List.map_reverse, List.mem_reverse, overlay_keys, mem_map_value_iff]
      exact hb
    rw [lookupEntries_projectedEntries, hov, lookupEntries_seed]
    simp only [Option.orElse, mem_map_value_iff]
    rfl

theorem NewIdentity_list_claim_mapping_not_seeded_witness :
    "bar" ∈ testConfig.ListClaimMappings.values
      ∧ ∃ id, NewIdentity (some testConfig) (some emptyClaims) = Except.ok id
        ∧ ("value." ++ "bar" ∈ id.ClaimMappings.keys
            ↔ "bar" ∈ testConfig.ClaimMappings.values ∨ "bar" ∈ emptyClaims.Value.keys)
        ∧ ("bar" ∉ emptyClaims.Value.keys →
            id.ClaimMappings.get? ("value." ++ "bar")
              = if "bar" ∈ testConfig.ClaimMappings.values then some "" else none) :=
  ⟨by decide,
    NewIdentity_list_claim_mapping_not_seeded testConfig emptyClaims "bar" (by decide)⟩

/-- C5: the `Claims` field of the identity built by `NewIdentity` is the claim set that
was passed in, with the same `Value` and `List`, whatever the config is. -/
theorem NewIdentity_claims_unchanged (config : ACLAuthMethodConfig)
    (claims : ACLAuthClaims) :
    ∃ id, NewIdentity (some config) (some claims) = Except.ok id
      ∧ id.Claims = some claims :=
  ⟨_, NewIdentity_some config claims, rfl⟩

/-- C6: `NewIdentity` is deterministic up to the order in which the two maps are
visited: if `config'` and `claims'` hold the same `ClaimMappings` and `Value` entries as
`config` and `claims`, visited in any other order, the two identities have the same
`ClaimMappings`: every key has the same binding in both, and the two maps hold the
same entries. -/
theorem NewIdentity_order_independent (config config' : ACLAuthMethodConfig)
    (claims claims' : ACLAuthClaims) (hwf : claims.Value.WF)
    (hcm : config.ClaimMappings.SameEntries config'.ClaimMappings)
    (hval : claims.Value.SameEntries claims'.Value) :
    ∃ id id', NewIdentity (some config) (some claims) = Except.ok id
      ∧ NewIdentity (some config') (some claims') = Except.ok id'
      ∧ (∀ key, id.ClaimMappings.get? key = id'.ClaimMappings.get? key)
      ∧ id.ClaimMappings.SameEntries id'.ClaimMappings := by
  have hget : ∀ key,
      lookupEntries key (projectedEntries config.ClaimMappings.range claims.Value.range)
        = lookupEntries key
            (projectedEntries config'.ClaimMappings.range claims'.Value.range) :=
    fun key => lookupEntries_projectedEntries_congr hwf
      (fun b => (hcm.map Prod.snd).mem_iff) hval key
  exact ⟨_, _, NewIdentity_some config claims, NewIdentity_some config' claims', hget,
    perm_of_lookupEntries_eq (projectedEntries_nodup _ _) (projectedEntries_nodup _ _) hget⟩

theorem NewIdentity_order_independent_witness :
    twoClaims.Value.WF
      ∧ twoConfig.ClaimMappings.SameEntries twoConfigSwapped.ClaimMappings
      ∧ twoClaims.Value.SameEntries twoClaimsSwapped.Value
      ∧ ∃ id id', NewIdentity (some twoConfig) (some twoClaims) = Except.ok id
        ∧ NewIdentity (some twoConfigSwapped) (some twoClaimsSwapped) = Except.ok id'
        ∧ (∀ key, id.ClaimMappings.get? key = id'.ClaimMappings.get? key)
        ∧ id.ClaimMappings.SameEntries id'.ClaimMappings :=
  ⟨by decide, List.Perm.swap _ _ _, List.Perm.swap _ _ _,
    NewIdentity_order_independent twoConfig twoConfigSwapped twoClaims twoClaimsSwapped
      (by decide) (List.Perm.swap _ _ _) (List.Perm.swap _ _ _)⟩

/-- C7: `NewIdentity` has no failure path: for every config and every claim set, nil or
empty maps included, it returns an identity and no panic; and for a config without
claim mappings and a claim set without values the returned `ClaimMappings` is the
empty map made by `make`. -/
theorem NewIdentity_no_failure_path (config : ACLAuthMethodConfig)
    (claims : ACLAuthClaims) :
    (∃ id, NewIdentity (some config) (some claims) = Except.ok id)
      ∧ (config.ClaimMappings.range = [] → claims.Value.range = [] →
          ∃ id, NewIdentity (some config) (some claims) = Except.ok id
            ∧ id.ClaimMappings = GoMap.make) := by
  refine ⟨⟨_, NewIdentity_some config claims⟩, ?_⟩
  intro h1 h2
  refine ⟨_, NewIdentity_some config claims, ?_⟩
  rw [h1, h2]
  rfl

theorem NewIdentity_no_failure_path_witness :
    ∃ id, NewIdentity (some nilConfig) (some emptyClaims) = Except.ok id
      ∧ id.ClaimMappings = GoMap.make :=
  (NewIdentity_no_failure_path nilConfig emptyClaims).2 rfl rfl

/-- C9: the `ClaimMappings` of the identity built by `NewIdentity` is exactly the
reference map: it is a well-formed map whose keys are the `"value." ++ b` for the
values `b` of `config.ClaimMappings` and the `"value." ++ k` for the keys `k` of
`claims.Value`, and no other; a key `"value." ++ k` of a claim maps to `claims.Value[k]`
and every other key maps to the empty string.  The seeds are the bind names, not the
external claim names, and undeclared claims are exposed: the claim mapping
`{"foo": "bar"}` with the claims `{"foo": "hello"}` gives exactly
`{"value.bar": "", "value.foo": "hello"}`. -/
theorem NewIdentity_claimMappings_exact (config : ACLAuthMethodConfig)
    (claims : ACLAuthClaims) (hwf : claims.Value.WF) :
    (∃ id, NewIdentity (some config) (some claims) = Except.ok id
      ∧ id.ClaimMappings.WF
      ∧ (∀ key, key ∈ id.ClaimMappings.keys
          ↔ (∃ b ∈ config.ClaimMappings.values, key = "value." ++ b)
            ∨ (∃ k ∈ claims.Value.keys, key = "value." ++ k))
      ∧ (∀ k v, (k, v) ∈ claims.Value.range →
          id.ClaimMappings.get? ("value." ++ k) = some v)
      ∧ (∀ key ∈ id.ClaimMappings.keys, (∀ k ∈ claims.Value.keys, key ≠ "value." ++ k) →
          id.ClaimMappings.get? key = some ""))
    ∧ NewIdentity (some testConfig) (some helloClaims)
        = Except.ok
            { Claims := some helloClaims
              ClaimMappings := GoMap.made [("value.bar", ""), ("value.foo", "hello")] } := by
  refine ⟨⟨_, NewIdentity_some config claims, projectedEntries_nodup _ _, ?_, ?_, ?_⟩, rfl⟩
  · intro key
    show key ∈ (projectedEntries _ _).map Prod.fst ↔ _
    rw [mem_keys_projectedEntries]
    simp only [List.mem_map, GoMap.values, GoMap.keys, eq_comm]
  · intro k v h
    show lookupEntries ("value." ++ k) (projectedEntries _ _) = some v
    rw [lookupEntries_projectedEntries_eq hwf, lookupEntries_overlay_of_mem hwf h]
    rfl
  · intro key hkey hne
    have hkey' : key ∈ (projectedEntries config.ClaimMappings.range
        claims.Value.range).map Prod.fst := hkey
    show lookupEntries key (projectedEntries _ _) = some ""
    rw [mem_keys_projectedEntries] at hkey'
    rcases hkey' with hseed | hov
    · rw [lookupEntries_projectedEntries_eq hwf, lookupEntries_overlay_eq_none hne,
        if_pos hseed]
      rfl
    · obtain ⟨k, hk, hkk⟩ := List.mem_map.mp hov
      exact absurd hkk.symm (hne k hk)

theorem NewIdentity_claimMappings_exact_witness :
    twoClaims.Value.WF
      ∧ ∃ id, NewIdentity (some twoConfig) (some twoClaims) = Except.ok id
        ∧ id.ClaimMappings.WF
        ∧ (∀ key, key ∈ id.ClaimMappings.keys
            ↔ (∃ b ∈ twoConfig.ClaimMappings.values, key = "value." ++ b)
              ∨ (∃ k ∈ twoClaims.Value.keys, key = "value." ++ k))
        ∧ (∀ k v, (k, v) ∈ twoClaims.Value.range →
            id.ClaimMappings.get? ("value." ++ k) = some v)
        ∧ (∀ key ∈ id.ClaimMappings.keys,
            (∀ k ∈ twoClaims.Value.keys, key ≠ "value." ++ k) →
              id.ClaimMappings.get? key = some "") :=
  ⟨by decide, (NewIdentity_claimMappings_exact twoConfig twoClaims (by decide)).1⟩

/-- C10: `ClaimMappings` depends only on the set of bind names (the values) of
`config.ClaimMappings` and on `claims.Value`: two configs with the same set of
`ClaimMappings` values and two claim sets with the same `Value` map give identities
with equal `ClaimMappings`, whatever the keys of the configs' `ClaimMappings`, their
`ListClaimMappings` and other fields, and the claim sets' `List` fields are. -/
theorem NewIdentity_depends_on_bind_names_and_values (config config' : ACLAuthMethodConfig)
    (claims claims' : ACLAuthClaims) (hwf : claims.Value.WF)
    (hcm : ∀ b, b ∈ config.ClaimMappings.values ↔ b ∈ config'.ClaimMappings.values)
    (hval : claims.Value.SameEntries claims'.Value) :
    ∃ id id', NewIdentity (some config) (some claims) = Except.ok id
      ∧ NewIdentity (some config') (some claims') = Except.ok id'
      ∧ (∀ key, id.ClaimMappings.get? key = id'.ClaimMappings.get? key)
      ∧ id.ClaimMappings.SameEntries id'.ClaimMappings := by
  have hget : ∀ key,
      lookupEntries key (projectedEntries config.ClaimMappings.range claims.Value.range)
        = lookupEntries key
            (projectedEntries config'.ClaimMappings.range claims'.Value.range) :=
    fun key => lookupEntries_projectedEntries_congr hwf hcm hval key
  exact ⟨_, _, NewIdentity_some config claims, NewIdentity_some config' claims', hget,
    perm_of_lookupEntries_eq (projectedEntries_nodup _ _) (projectedEntries_nodup _ _) hget⟩

theorem NewIdentity_depends_on_bind_names_and_values_witness :
    helloClaims.Value.WF
      ∧ (∀ b, b ∈ testConfig.ClaimMappings.values ↔ b ∈ renamedConfig.ClaimMappings.values)
      ∧ helloClaims.Value.SameEntries helloListClaims.Value
      ∧ ∃ id id', NewIdentity (some testConfig) (some helloClaims) = Except.ok id
        ∧ NewIdentity (some renamedConfig) (some helloListClaims) = Except.ok id'
        ∧ (∀ key, id.ClaimMappings.get? key = id'.ClaimMappings.get? key)
        ∧ id.ClaimMappings.SameEntries id'.ClaimMappings :=
  have hcm : ∀ b, b ∈ testConfig.ClaimMappings.values
      ↔ b ∈ renamedConfig.ClaimMappings.values := by
    intro b
    simp [testConfig, renamedConfig, GoMap.values, GoMap.range]
  ⟨by decide, hcm, List.Perm.refl _,
    NewIdentity_depends_on_bind_names_and_values testConfig renamedConfig helloClaims
      helloListClaims (by decide) hcm (List.Perm.refl _)⟩

/-! ## The authorization URL -/

/-- C8, as stated, fails on the modelled issuer, at the request of
`TestACLOIDC_GetAuthURL`, whose redirect URI is the method's allowed one.  When the
provider's discovery cannot be had the request does not succeed: it ends in
`DiscoveryError`.  And when discovery answers, the state parameter is the token the
state store generated, which need not start with `st_`: for the token `0a1b2c3d4e5f`
the state is `0a1b2c3d4e5f`. -/
theorem GetAuthURL_allowed_redirect_counterexample :
    lookupEntries testAuthURLRequest.AuthMethodName testMethods = some testConfig
      ∧ testAuthURLRequest.RedirectURI ∈ testConfig.AllowedRedirectURIs
      ∧ GetAuthURL testMethods unreachableDiscover [] "st_someweirdstateid" 0 300
          testAuthURLRequest = Except.error AuthURLError.DiscoveryError
      ∧ ∃ url records', GetAuthURL testMethods testDiscover [] "0a1b2c3d4e5f" 0 300
            testAuthURLRequest = Except.ok (url, records')
          ∧ url.param "state" = some "0a1b2c3d4e5f"
          ∧ ¬ startsWith "0a1b2c3d4e5f" "st_" :=
  ⟨by decide, by decide, rfl, _, _, rfl, by decide, by decide⟩

/-- C8, amended: for every `GetAuthURL` request on an auth method of the store whose
redirect URI is one of the method's allowed redirect URIs, if the provider's discovery
answers and the token the state store generated starts with `st_`, the request
succeeds and the URL is the provider's authorization endpoint with the parameters
`client_id` equal to the method's client ID, `nonce` equal to the client nonce of the
request, `redirect_uri` equal to the request's redirect URI, `response_type=code`,
`scope=openid` and `state` equal to the generated token, which starts with `st_`. -/
theorem GetAuthURL_allowed_redirect (methods : List (String × ACLAuthMethodConfig))
    (discover : String → Option String) (records : List StateRecord) (token : String)
    (now ttl : Nat) (request : ACLOIDCAuthURLRequest) (config : ACLAuthMethodConfig)
    (endpoint : String)
    (hm : lookupEntries request.AuthMethodName methods = some config)
    (hr : request.RedirectURI ∈ config.AllowedRedirectURIs)
    (hd : discover config.OIDCDiscoveryURL = some endpoint)
    (ht : startsWith token "st_") :
    ∃ url records', GetAuthURL methods discover records token now ttl request
        = Except.ok (url, records')
      ∧ url.endpoint = endpoint
      ∧ url.param "client_id" = some config.OIDCClientID
      ∧ url.param "nonce" = some request.ClientNonce
      ∧ url.param "redirect_uri" = some request.RedirectURI
      ∧ url.param "response_type" = some "code"
      ∧ url.param "scope" = some "openid"
      ∧ (∃ state, url.param "state" = some state ∧ state = token
          ∧ startsWith state "st_") := by
  refine ⟨{ endpoint := endpoint
            query := [("client_id", config.OIDCClientID), ("nonce", request.ClientNonce),
              ("redirect_uri", request.RedirectURI), ("response_type", "code"),
              ("scope", "openid"), ("state", token)] },
    (StateStore.Create records token now ttl request.AuthMethodName request.ClientNonce).2,
    ?_, rfl, ?_, ?_, ?_, ?_, ?_, ⟨token, ?_, rfl, ht⟩⟩
  · simp only [GetAuthURL, hm, StateStore.Create, BuildAuthURL, hr, if_true, hd]
  all_goals simp [AuthURL.param, lookupEntries]

theorem GetAuthURL_allowed_redirect_witness :
    lookupEntries testAuthURLRequest.AuthMethodName testMethods = some testConfig
      ∧ testAuthURLRequest.RedirectURI ∈ testConfig.AllowedRedirectURIs
      ∧ testDiscover testConfig.OIDCDiscoveryURL = some "https://127.0.0.1:8443/authorize"
      ∧ startsWith "st_someweirdstateid" "st_"
      ∧ ∃ url records', GetAuthURL testMethods testDiscover [] "st_someweirdstateid" 0 300
            testAuthURLRequest = Except.ok (url, records')
          ∧ url.endpoint = "https://127.0.0.1:8443/authorize"
          ∧ url.param "client_id" = some testConfig.OIDCClientID
          ∧ url.param "nonce" = some testAuthURLRequest.ClientNonce
          ∧ url.param "redirect_uri" = some testAuthURLRequest.RedirectURI
          ∧ url.param "response_type" = some "code"
          ∧ url.param "scope" = some "openid"
          ∧ (∃ state, url.param "state" = some state ∧ state = "st_someweirdstateid"
              ∧ startsWith state "st_") :=
  ⟨by decide, by decide, by decide, by decide,
    GetAuthURL_allowed_redirect testMethods testDiscover [] "st_someweirdstateid" 0 300
      testAuthURLRequest testConfig "https://127.0.0.1:8443/authorize" (by decide)
      (by decide) (by decide) (by decide)⟩

end Nomad
